import Mathlib

/-!
Verification of the ConvoSage slash-command parser and tool-badge detector
(frontend `commandParser` module).

Strings are modelled as `List Char`.  JavaScript string operations used by
the module are embedded faithfully:

* `trim`            — drop leading and trailing whitespace;
* `split(/\s+/)`    — split on maximal runs of whitespace; a run at the very
  start (resp. end) of the string contributes a leading (resp. trailing)
  empty token, and splitting the empty string yields `[""]`;
* `toLowerCase`     — ASCII case folding (the only letters the module
  compares are ASCII);
* `includes`        — substring test;
* `match(/\d+/)`    — succeeds iff the string contains an ASCII digit;
* a falsy test on a string (`!s`, `s ? a : b`) — emptiness test.

The JavaScript value `null`/`undefined` passed where a string is expected is
modelled by `Option` at the call boundary; invoking `.toLowerCase()` on it
throws, modelled by `Except Unit`.
-/

abbrev Str := List Char

/-- Whitespace class of the JavaScript `\s` / `trim` (ASCII part). -/
def isWs (c : Char) : Bool :=
  c = ' ' || c = '\t' || c = '\n' || c = '\r' || c = '\x0b' || c = '\x0c'

/-- Every character of the string is whitespace. -/
def allWs (s : Str) : Bool := s.all isWs

/-- No character of the string is whitespace. -/
def noWs (s : Str) : Bool := s.all (fun c => !(isWs c))

/-- JavaScript `String.prototype.trim`. -/
def trim (s : Str) : Str :=
  ((s.dropWhile isWs).reverse.dropWhile isWs).reverse

/-- JavaScript `str.startsWith(pre)`: `pre` is a prefix of `s`. -/
def startsWithL : Str → Str → Bool
  | [], _ => true
  | _ :: _, [] => false
  | p :: ps, c :: cs => p = c && startsWithL ps cs

/-- JavaScript `str.includes(n)`: `n` occurs as a contiguous substring. -/
def containsSub (n : Str) : Str → Bool
  | [] => n.isEmpty
  | c :: rest => startsWithL n (c :: rest) || containsSub n rest

/-- JavaScript `str.match(/\d+/)` succeeds: the string has an ASCII digit. -/
def hasDigit (s : Str) : Bool := s.any (fun c => '0' ≤ c && c ≤ '9')

/-- ASCII lower-casing of one character (JavaScript `toLowerCase` on the
ASCII range, which is all the module compares). -/
def lowerChar (c : Char) : Char :=
  if 'A' ≤ c ∧ c ≤ 'Z' then Char.ofNat (c.toNat + 32) else c

/-- JavaScript `str.toLowerCase()`. -/
def toLowerStr (s : Str) : Str := s.map lowerChar

/-- State machine implementing JavaScript `str.split(/\s+/)`.  The `Bool`
argument records whether we are inside a whitespace run whose token has
already been emitted.  Matches the JS semantics exactly, including the
leading empty token when the string starts with whitespace, the trailing
empty token when it ends with whitespace, and `"".split(/\s+/) = [""]`. -/
def splitAux : Str → Str → Bool → List Str
  | [], acc, _ => [acc.reverse]
  | c :: rest, acc, skipping =>
    if isWs c then
      if skipping then splitAux rest acc skipping
      else acc.reverse :: splitAux rest [] true
    else splitAux rest (c :: acc) false

/-- JavaScript `str.split(/\s+/)`. -/
def jsSplitWs (s : Str) : List Str := splitAux s [] false

/-- Source: `COMMANDS` object — the ten command-name constants, in
declaration order. -/
def COMMANDS : List Str :=
  ["calc".toList, "calculate".toList, "products".toList, "product".toList,
   "outlets".toList, "outlet".toList, "locations".toList, "reset".toList,
   "clear".toList, "help".toList]

/-- Source: `COMMAND_DESCRIPTIONS` object — an ordered association of
command name to description (JS object insertion order).  Only five of the
ten command names receive an entry. -/
def COMMAND_DESCRIPTIONS : List (Str × Str) :=
  [("calc".toList, "Perform calculations - e.g., /calc 25 * 4".toList),
   ("products".toList, "Search products - e.g., /products tumbler".toList),
   ("outlets".toList, "Find outlets - e.g., /outlets Kuala Lumpur".toList),
   ("reset".toList, "Clear conversation history".toList),
   ("help".toList, "Show available commands".toList)]

/-- Result of `parseCommand`. -/
structure ParsedCommand where
  command : Str
  args : Str
deriving DecidableEq, Repr

/-- Autocomplete entry produced by `getCommandSuggestions`. -/
structure Suggestion where
  command : Str
  description : Str
  display : Str
deriving DecidableEq, Repr

/-- Source: `isCommand(message)` for a string argument: `!message` is the
emptiness test, then trim and check the first character is `/`. -/
def isCommand (m : Str) : Bool :=
  if m.isEmpty then false else startsWithL ['/'] (trim m)

/-- Source: `parseCommand(message)`.  `trimmed.slice(1)` is `List.drop 1`,
`parts.slice(1).join(' ')` is `List.intercalate [' ']`, and `args || ''`
is the identity on the result (an empty join is already empty). -/
def parseCommand (m : Str) : Option ParsedCommand :=
  if !(isCommand m) then none
  else
    match jsSplitWs ((trim m).drop 1) with
    | [] => none
    | p :: ps => some ⟨toLowerStr p, List.intercalate [' '] ps⟩

/-- Source: `getCommandSuggestions(input)`. -/
def getCommandSuggestions (input : Str) : List Suggestion :=
  if input.isEmpty || !(startsWithL ['/'] input) then []
  else
    let part := toLowerStr (input.drop 1)
    if part.isEmpty then
      COMMAND_DESCRIPTIONS.map (fun cd => ⟨cd.1, cd.2, '/' :: cd.1⟩)
    else
      (COMMAND_DESCRIPTIONS.filter (fun cd => startsWithL part cd.1)).map
        (fun cd => ⟨cd.1, cd.2, '/' :: cd.1⟩)

/-- Source: `getHelpMessage()`. -/
def getHelpMessage : Str :=
  "Available commands:".toList ++ '\n' ::
    List.intercalate ['\n']
      (COMMAND_DESCRIPTIONS.map
        (fun cd => "• /".toList ++ cd.1 ++ " - ".toList ++ cd.2))

/-- Source: `commandToMessage(command, args)`.  The JS `switch` with
fall-through groups becomes a chain of equality tests; `args ? a : b`
tests emptiness. -/
def commandToMessage (command args : Str) : Option Str :=
  if command = "calc".toList ∨ command = "calculate".toList then
    some (if args.isEmpty then "Please provide a calculation".toList
          else "Calculate ".toList ++ args)
  else if command = "products".toList ∨ command = "product".toList then
    some (if args.isEmpty then "Show me all products".toList
          else "Show me ".toList ++ args)
  else if command = "outlets".toList ∨ command = "outlet".toList ∨
          command = "locations".toList then
    some (if args.isEmpty then "Show me all outlets".toList
          else "Find outlets in ".toList ++ args)
  else if command = "help".toList then
    some getHelpMessage
  else
    none

/-- Classification chain of `detectToolUsed` applied to the already
lower-cased message text. -/
def classifyLower (lower : Str) : Option Str :=
  if containsSub "result".toList lower && hasDigit lower then
    some "calculator".toList
  else if containsSub "product".toList lower || containsSub "tumbler".toList lower ||
          containsSub "bottle".toList lower || containsSub "glass".toList lower then
    some "products".toList
  else if containsSub "outlet".toList lower || containsSub "location".toList lower ||
          containsSub "address".toList lower || containsSub "drive-through".toList lower then
    some "outlets".toList
  else
    none

/-- Source: `detectToolUsed(message)` for a string argument. -/
def detectToolUsed (m : Str) : Option Str := classifyLower (toLowerStr m)

/-- JavaScript `message.toLowerCase()` at the `detectToolUsed` entry point:
on `null`/`undefined` it throws a `TypeError` (modelled as `Except.error`). -/
def jsToLowerCase : Option Str → Except Unit Str
  | none => Except.error ()
  | some s => Except.ok (toLowerStr s)

/-- Source: the `detectToolUsed` call as reachable from JavaScript with a
possibly-null argument: the very first statement dereferences the argument. -/
def detectToolUsedJS (m : Option Str) : Except Unit (Option Str) :=
  (jsToLowerCase m).map classifyLower

/-- Tokens-and-separators decomposition of the text following the slash:
`glue t rest` is the first token `t` followed by alternating separator and
token pairs from `rest`. -/
def glue : Str → List (Str × Str) → Str
  | t, [] => t
  | t, p :: rs => t ++ p.1 ++ glue p.2 rs

/-- Split of a string on the newline character (exact, not by runs). -/
def splitOnNl : Str → List Str
  | [] => [[]]
  | c :: r =>
    match splitOnNl r with
    | [] => [[c]]
    | l :: ls => if c = '\n' then [] :: l :: ls else (c :: l) :: ls

/-! ## Helper lemmas -/

lemma allWs_mem {l : Str} (h : allWs l = true) : ∀ c ∈ l, isWs c = true := by
  simpa [allWs, List.all_eq_true] using h

lemma noWs_mem {l : Str} (h : noWs l = true) : ∀ c ∈ l, isWs c = false := by
  have := List.all_eq_true.mp h
  intro c hc
  simpa using this c hc

lemma dropWhile_append_all (p : Char → Bool) :
    ∀ (a b : Str), (∀ c ∈ a, p c = true) → (a ++ b).dropWhile p = b.dropWhile p
  | [], _, _ => rfl
  | c :: a', b, h => by
    rw [List.cons_append, List.dropWhile_cons_of_pos (h c (by simp))]
    exact dropWhile_append_all p a' b (fun x hx => h x (by simp [hx]))

lemma trim_sandwich (pre post x : Str) (hpre : allWs pre = true)
    (hpost : allWs post = true)
    (hx1 : ∃ c r, x = c :: r ∧ isWs c = false)
    (hx2 : ∃ c r, x.reverse = c :: r ∧ isWs c = false) :
    trim (pre ++ x ++ post) = x := by
  obtain ⟨c, r, hxe, hc⟩ := hx1
  obtain ⟨d, rr, hre, hd⟩ := hx2
  unfold trim
  have h1 : (pre ++ x ++ post).dropWhile isWs = x ++ post := by
    rw [List.append_assoc, dropWhile_append_all isWs pre (x ++ post) (allWs_mem hpre)]
    rw [hxe, List.cons_append, List.dropWhile_cons_of_neg (by simp [hc])]
  have h2 : (x ++ post).reverse.dropWhile isWs = x.reverse := by
    rw [List.reverse_append,
      dropWhile_append_all isWs post.reverse x.reverse
        (fun cc hcc => allWs_mem hpost cc (List.mem_reverse.mp hcc))]
    rw [hre, List.dropWhile_cons_of_neg (by simp [hd])]
  rw [h1, h2, List.reverse_reverse]

lemma splitAux_ne_nil : ∀ (s acc : Str) (b : Bool), splitAux s acc b ≠ []
  | [], acc, b => by simp [splitAux]
  | c :: r, acc, b => by
    simp only [splitAux]
    split
    · split
      · exact splitAux_ne_nil r acc b
      · simp
    · exact splitAux_ne_nil r (c :: acc) false

lemma jsSplitWs_ne_nil (s : Str) : jsSplitWs s ≠ [] := splitAux_ne_nil s [] false

lemma splitAux_chunk :
    ∀ (t rest acc : Str), noWs t = true →
      splitAux (t ++ rest) acc false = splitAux rest (t.reverse ++ acc) false
  | [], rest, acc, _ => by simp
  | c :: t', rest, acc, h => by
    have hc : isWs c = false := noWs_mem h c (by simp)
    have ht' : noWs t' = true := by
      have := noWs_mem h
      simp only [noWs, List.all_eq_true]
      intro x hx
      simp [this x (by simp [hx])]
    rw [List.cons_append]
    simp only [splitAux, hc]
    rw [splitAux_chunk t' rest (c :: acc) ht']
    simp

lemma splitAux_skip :
    ∀ (w rest : Str), allWs w = true →
      splitAux (w ++ rest) [] true = splitAux rest [] true
  | [], _, _ => by simp
  | c :: w', rest, h => by
    have hc : isWs c = true := allWs_mem h c (by simp)
    have hw' : allWs w' = true := by
      simp only [allWs, List.all_eq_true]
      exact fun x hx => allWs_mem h x (by simp [hx])
    rw [List.cons_append]
    simp only [splitAux, hc]
    exact splitAux_skip w' rest hw'

lemma splitAux_mode (c : Char) (r : Str) (hc : isWs c = false) :
    splitAux (c :: r) [] true = splitAux (c :: r) [] false := by
  simp [splitAux, hc]

lemma glue_head (c : Char) (t : Str) (rs : List (Str × Str)) :
    ∃ r, glue (c :: t) rs = c :: r := by
  cases rs with
  | nil => exact ⟨t, rfl⟩
  | cons p rs' => exact ⟨t ++ p.1 ++ glue p.2 rs', by simp [glue]⟩

lemma glue_rev_head :
    ∀ (rs : List (Str × Str)) (t : Str), t ≠ [] → noWs t = true →
      (∀ p ∈ rs, p.2 ≠ [] ∧ noWs p.2 = true) →
      ∃ c r, (glue t rs).reverse = c :: r ∧ isWs c = false
  | [], t, h1, h2, _ => by
    cases hrev : t.reverse with
    | nil => exact absurd (by simpa using hrev) h1
    | cons c r =>
      have hc : c ∈ t := by
        have : c ∈ t.reverse := by simp [hrev]
        simpa using this
      exact ⟨c, r, by simpa [glue] using hrev, noWs_mem h2 c hc⟩
  | p :: rs, t, h1, h2, hr => by
    obtain ⟨c, r, he, hc⟩ :=
      glue_rev_head rs p.2 (hr p (by simp)).1 (hr p (by simp)).2
        (fun q hq => hr q (by simp [hq]))
    refine ⟨c, r ++ (p.1.reverse ++ t.reverse), ?_, hc⟩
    simp [glue, List.reverse_append, he]

lemma jsSplitWs_glue :
    ∀ (rest : List (Str × Str)) (t : Str), t ≠ [] → noWs t = true →
      (∀ p ∈ rest, p.1 ≠ [] ∧ allWs p.1 = true ∧ p.2 ≠ [] ∧ noWs p.2 = true) →
      jsSplitWs (glue t rest) = t :: rest.map Prod.snd
  | [], t, _, ht2, _ => by
    have h := splitAux_chunk t [] [] ht2
    simp only [List.append_nil] at h
    simpa [jsSplitWs, glue, splitAux] using h
  | p :: rs, t, ht1, ht2, hr => by
    obtain ⟨hp1, hp2, hp3, hp4⟩ := hr p (by simp)
    obtain ⟨wc, w', hw⟩ := List.exists_cons_of_ne_nil hp1
    have hwc : isWs wc = true := allWs_mem hp2 wc (by simp [hw])
    have hw' : allWs w' = true := by
      simp only [allWs, List.all_eq_true]
      exact fun x hx => allWs_mem hp2 x (by simp [hw, hx])
    obtain ⟨c2, t2, h2⟩ := List.exists_cons_of_ne_nil hp3
    have hc2 : isWs c2 = false := noWs_mem hp4 c2 (by simp [h2])
    obtain ⟨g, hg⟩ := glue_head c2 t2 rs
    have step1 : jsSplitWs (glue t (p :: rs)) =
        splitAux (p.1 ++ glue p.2 rs) t.reverse false := by
      have : glue t (p :: rs) = t ++ (p.1 ++ glue p.2 rs) := by
        simp [glue, List.append_assoc]
      rw [jsSplitWs, this, splitAux_chunk t _ [] ht2, List.append_nil]
    have step2 : splitAux (p.1 ++ glue p.2 rs) t.reverse false =
        t :: splitAux (w' ++ glue p.2 rs) [] true := by
      rw [hw, List.cons_append]
      simp [splitAux, hwc]
    have step3 : splitAux (w' ++ glue p.2 rs) [] true =
        splitAux (glue p.2 rs) [] true := splitAux_skip w' _ hw'
    have step4 : splitAux (glue p.2 rs) [] true = jsSplitWs (glue p.2 rs) := by
      rw [h2, hg]
      exact splitAux_mode c2 g hc2
    have ih := jsSplitWs_glue rs p.2 hp3 hp4 (fun q hq => hr q (by simp [hq]))
    rw [step1, step2, step3, step4, ih]
    simp

/-! ## Claim theorems -/

/-- C1: the spec says `parseCommand("/")` is `null`, and the source's own
`parts.length === 0` guard shows that was the intent; but in JavaScript
`"".split(/\s+/)` is `[""]`, so the guard never fires and the code actually
returns `{ command: "", args: "" }`.  This theorem evaluates the code at the
failing input. -/
theorem parseCommand_lone_slash_eval :
    parseCommand ['/'] = some ⟨[], []⟩ ∧ jsSplitWs [] = [[]] := by decide

/-- C2 counterexample: `detectToolUsed` starts with
`message.toLowerCase()` and has no null guard, so a null/absent message
throws instead of classifying to `none`; the claim that it never raises on
a null/absent input is false. -/
theorem detectTool_null_throws :
    detectToolUsedJS none = Except.error () ∧
      detectToolUsedJS none ≠ Except.ok none :=
  ⟨rfl, fun h => Except.noConfusion h⟩

/-- C2 amended: `detectTool` is total and exception-free over every string
input, including the empty string, which classifies to `none`; only a
null/absent (non-string) message raises. -/
theorem detectTool_total_on_strings :
    (∀ s : Str, ∃ r, detectToolUsedJS (some s) = Except.ok r) ∧
      detectToolUsed [] = none ∧
      detectToolUsedJS none = Except.error () :=
  ⟨fun s => ⟨classifyLower (toLowerStr s), rfl⟩, by decide, rfl⟩

/-- C3 counterexample: the suggestion registry (`COMMAND_DESCRIPTIONS`)
has no `calculate` entry, so `getSuggestions("/ca")` does not return a
`calculate` suggestion. -/
theorem getSuggestions_ca_no_calculate :
    ¬ ("calculate".toList ∈
        (getCommandSuggestions "/ca".toList).map Suggestion.command) := by
  decide

/-- C3 amended: `getSuggestions("/")` returns every registry entry in
declared order (calc, products, outlets, reset, help), and
`getSuggestions("/ca")` returns exactly the registry entries whose name
starts with "ca" — namely the single entry `calc`, the registry having no
`calculate` entry — in registry order. -/
theorem getSuggestions_slash_and_ca :
    getCommandSuggestions "/".toList =
      [⟨"calc".toList, "Perform calculations - e.g., /calc 25 * 4".toList,
          "/calc".toList⟩,
       ⟨"products".toList, "Search products - e.g., /products tumbler".toList,
          "/products".toList⟩,
       ⟨"outlets".toList, "Find outlets - e.g., /outlets Kuala Lumpur".toList,
          "/outlets".toList⟩,
       ⟨"reset".toList, "Clear conversation history".toList,
          "/reset".toList⟩,
       ⟨"help".toList, "Show available commands".toList,
          "/help".toList⟩] ∧
    getCommandSuggestions "/ca".toList =
      [⟨"calc".toList, "Perform calculations - e.g., /calc 25 * 4".toList,
          "/calc".toList⟩] := by decide

/-- C4 counterexample: the name-to-description registry
(`COMMAND_DESCRIPTIONS`) has no entry for `calculate`, so it does not
contain an entry for each of the ten claimed names. -/
theorem registry_missing_calculate :
    ¬ ("calculate".toList ∈ COMMAND_DESCRIPTIONS.map Prod.fst) := by decide

/-- C4 amended: the ordered name-to-description mapping contains exactly
the five names calc, products, outlets, reset, help, in declared order;
the ten command names exist only as the separate `COMMANDS` constant
list. -/
theorem registry_keys_and_commands :
    COMMAND_DESCRIPTIONS.map Prod.fst =
      ["calc", "products", "outlets", "reset", "help"].map String.toList ∧
    COMMANDS =
      ["calc", "calculate", "products", "product", "outlets", "outlet",
       "locations", "reset", "clear", "help"].map String.toList := by decide

/-- C5: the detector's first rule wins: any message whose lower-cased text
contains "result" and a digit classifies as `calculator`, whatever else
(for instance a products keyword like "tumbler") it contains; and a
message matching no rule, such as "Hello there", classifies as `none`. -/
theorem detectTool_priority (m : Str)
    (h1 : containsSub "result".toList (toLowerStr m) = true)
    (h2 : hasDigit (toLowerStr m) = true) :
    detectToolUsed m = some "calculator".toList ∧
      detectToolUsed "Hello there".toList = none := by
  constructor
  · unfold detectToolUsed classifyLower
    rw [h1, h2]
    simp
  · decide

/-- C5 witness: a concrete message containing "result", a digit, and the
products keyword "tumbler" still classifies as `calculator`. -/
theorem detectTool_priority_witness :
    containsSub "result".toList (toLowerStr "The result 5 for tumbler".toList) = true ∧
    containsSub "tumbler".toList (toLowerStr "The result 5 for tumbler".toList) = true ∧
    detectToolUsed "The result 5 for tumbler".toList = some "calculator".toList :=
  ⟨by decide, by decide,
    (detectTool_priority "The result 5 for tumbler".toList (by decide) (by decide)).1⟩

/-- C6: `commandToMessage` maps any command outside the known action set to
`null`; calc/calculate to "Calculate "+args or the fixed prompt;
products/product to "Show me "+args or "Show me all products";
outlets/outlet/locations to "Find outlets in "+args or
"Show me all outlets", according to whether args is empty. -/
theorem commandToMessage_cases (command args : Str) :
    (command ∉ ["calc".toList, "calculate".toList, "products".toList,
        "product".toList, "outlets".toList, "outlet".toList,
        "locations".toList, "help".toList] →
      commandToMessage command args = none) ∧
    (command = "calc".toList ∨ command = "calculate".toList →
      commandToMessage command args =
        some (if args = [] then "Please provide a calculation".toList
              else "Calculate ".toList ++ args)) ∧
    (command = "products".toList ∨ command = "product".toList →
      commandToMessage command args =
        some (if args = [] then "Show me all products".toList
              else "Show me ".toList ++ args)) ∧
    (command = "outlets".toList ∨ command = "outlet".toList ∨
        command = "locations".toList →
      commandToMessage command args =
        some (if args = [] then "Show me all outlets".toList
              else "Find outlets in ".toList ++ args)) := by
  refine ⟨?_, ?_, ?_, ?_⟩
  · intro h
    simp only [List.mem_cons, List.not_mem_nil, or_false, not_or] at h
    obtain ⟨h1, h2, h3, h4, h5, h6, h7, h8⟩ := h
    unfold commandToMessage
    rw [if_neg (fun hc => hc.elim h1 h2),
      if_neg (fun hc => hc.elim h3 h4),
      if_neg (by rintro (hc | hc | hc) <;> [exact h5 hc; exact h6 hc; exact h7 hc]),
      if_neg h8]
  · rintro (rfl | rfl) <;> cases args <;> simp [commandToMessage]
  · rintro (rfl | rfl) <;> cases args <;> simp [commandToMessage]
  · rintro (rfl | rfl | rfl) <;> cases args <;> simp [commandToMessage]

/-- C6 witness: concrete instances of the translator mapping. -/
theorem commandToMessage_cases_witness :
    commandToMessage "products".toList "tumbler".toList =
      some "Show me tumbler".toList ∧
    commandToMessage "unknown".toList "x".toList = none :=
  ⟨((commandToMessage_cases "products".toList "tumbler".toList).2.2.1
      (Or.inl rfl)).trans (by decide),
   (commandToMessage_cases "unknown".toList "x".toList).1 (by decide)⟩

set_option maxRecDepth 4000 in
/-- C8: splitting the help text on newlines yields the header line followed
by exactly one line per registry entry in registry order, each formatted
"• /<name> - <description>"; hence every registry command with a
description contributes a line starting "• /<name> - ". -/
theorem helpText_lines :
    splitOnNl getHelpMessage =
      "Available commands:".toList ::
        COMMAND_DESCRIPTIONS.map
          (fun cd => "• /".toList ++ cd.1 ++ " - ".toList ++ cd.2) ∧
    (∀ cd ∈ COMMAND_DESCRIPTIONS, ∃ l ∈ splitOnNl getHelpMessage,
        startsWithL ("• /".toList ++ cd.1 ++ " - ".toList) l = true) := by
  decide

/-- C8 witness: the `calc` registry entry has its line in the help text. -/
theorem helpText_lines_witness :
    ("calc".toList, "Perform calculations - e.g., /calc 25 * 4".toList) ∈
      COMMAND_DESCRIPTIONS ∧
    (∃ l ∈ splitOnNl getHelpMessage,
        startsWithL ("• /".toList ++ "calc".toList ++ " - ".toList) l = true) :=
  ⟨by decide,
    helpText_lines.2
      ("calc".toList, "Perform calculations - e.g., /calc 25 * 4".toList)
      (by decide)⟩

/-- C10: `getCommandSuggestions` never trims: any input whose first
character is not `/` yields no suggestions, even though an input such as
"  /ca" (with leading whitespace) is still accepted as a command by
`isCommand`. -/
theorem getSuggestions_no_trim (s : Str)
    (h : startsWithL ['/'] s = false) :
    getCommandSuggestions s = [] ∧
      isCommand "  /ca".toList = true ∧
      getCommandSuggestions "  /ca".toList = [] := by
  refine ⟨?_, by decide, by decide⟩
  simp [getCommandSuggestions, h]

/-- C10 witness: the leading-whitespace input "  /ca" has a non-slash first
character, so it gets no suggestions despite being a command. -/
theorem getSuggestions_no_trim_witness :
    startsWithL ['/'] "  /ca".toList = false ∧
      getCommandSuggestions "  /ca".toList = [] :=
  ⟨by decide, (getSuggestions_no_trim "  /ca".toList (by decide)).1⟩

/-- C9: whenever `isCommand` accepts an input, `parseCommand` returns a
parsed command (never null): the split always produces at least one
(possibly empty) token, so the guarded null branch is unreachable; in
particular "/" and "/ calc" parse with an empty command field. -/
theorem parseCommand_total_on_commands :
    (∀ m : Str, isCommand m = true → (parseCommand m).isSome = true) ∧
      parseCommand ['/'] = some ⟨[], []⟩ ∧
      parseCommand "/ calc".toList = some ⟨[], "calc".toList⟩ := by
  refine ⟨?_, by decide, by decide⟩
  intro m h
  simp only [parseCommand, h, Bool.not_true, Bool.false_eq_true, if_false]
  cases hsplit : jsSplitWs ((trim m).drop 1) with
  | nil => exact absurd hsplit (jsSplitWs_ne_nil _)
  | cons p ps => simp

/-- C9 witness: a concrete accepted input parses to a non-null result. -/
theorem parseCommand_total_on_commands_witness :
    isCommand "  /x".toList = true ∧
      (parseCommand "  /x".toList).isSome = true :=
  ⟨by decide, parseCommand_total_on_commands.1 _ (by decide)⟩

/-- C7: for every input built from optional surrounding whitespace, a
slash, a first token, and further tokens separated by arbitrary whitespace
runs (the general shape of every input whose trimmed form starts with `/`
with a token right after the slash), `parseCommand` returns the lower-cased
first token as the command and the remaining tokens joined by single
spaces as the args: whitespace runs collapse, the command is case-folded,
and leading/trailing whitespace is insignificant. -/
theorem parseCommand_grammar (pre post t : Str) (rest : List (Str × Str))
    (hpre : allWs pre = true) (hpost : allWs post = true)
    (ht1 : t ≠ []) (ht2 : noWs t = true)
    (hrest : ∀ p ∈ rest, p.1 ≠ [] ∧ allWs p.1 = true ∧ p.2 ≠ [] ∧ noWs p.2 = true) :
    parseCommand (pre ++ ('/' :: glue t rest) ++ post) =
      some ⟨toLowerStr t, List.intercalate [' '] (rest.map Prod.snd)⟩ := by
  have hx1 : ∃ c r, ('/' :: glue t rest) = c :: r ∧ isWs c = false :=
    ⟨'/', glue t rest, rfl, by decide⟩
  have hx2 : ∃ c r, ('/' :: glue t rest).reverse = c :: r ∧ isWs c = false := by
    obtain ⟨c, r, he, hc⟩ :=
      glue_rev_head rest t ht1 ht2
        (fun p hp => ⟨(hrest p hp).2.2.1, (hrest p hp).2.2.2⟩)
    exact ⟨c, r ++ ['/'], by simp [he], hc⟩
  have htrim : trim (pre ++ ('/' :: glue t rest) ++ post) = '/' :: glue t rest :=
    trim_sandwich pre post _ hpre hpost hx1 hx2
  have hcmd : isCommand (pre ++ ('/' :: glue t rest) ++ post) = true := by
    unfold isCommand
    rw [htrim]
    simp [startsWithL]
  simp only [parseCommand, hcmd, Bool.not_true, Bool.false_eq_true, if_false]
  rw [htrim]
  simp only [List.drop_succ_cons, List.drop_zero]
  rw [jsSplitWs_glue rest t ht1 ht2 hrest]

/-- C7 witness: a concrete input with leading/trailing whitespace, an
upper-case command, and multi-space separators parses to a lower-cased
command and single-space-joined args. -/
theorem parseCommand_grammar_witness :
    parseCommand "  /CALC  25   *  4 ".toList =
      some ⟨"calc".toList, "25 * 4".toList⟩ := by
  have h := parseCommand_grammar "  ".toList " ".toList "CALC".toList
    [("  ".toList, "25".toList), ("   ".toList, "*".toList),
     ("  ".toList, "4".toList)]
    (by decide) (by decide) (by decide) (by decide) (by decide)
  exact (congrArg parseCommand (by decide)).symm.trans (h.trans (by decide))
